import Mathlib

/-!
Shallow embedding of the trade journal core of this repository:
`parse_trade_data` and `analyze_trades` from `src/trade_analyzer.py`, and the
per-day trade serialization loop of `save_data` from `src/utils.py`
(lines 27 to 34).

Python floats are idealized as exact rationals; `math.sqrt` is `Real.sqrt`.
A Python exception is modelled explicitly: operations that can raise a
`ZeroDivisionError` return `Option`, and the parser returns a three-way
result (trade list, the `None` error value, or an unhandled `ValueError`
escaping from `float`).  Strings are processed as lists of characters;
the ASCII fragment of Python text handling is embedded (the inputs of the
notation are ASCII).
-/

namespace Backtest

/-- ASCII decimal digit test: the regex class `\d` on ASCII input. -/
def isDig (c : Char) : Bool := decide ('0' ≤ c ∧ c ≤ '9')

/-- Python whitespace, as stripped by `str.strip`. -/
def isPySpace (c : Char) : Bool :=
  decide (c = ' ' ∨ c = '\t' ∨ c = '\n' ∨ c = '\r' ∨ c = Char.ofNat 11 ∨ c = Char.ofNat 12)

/-- The 26 lowercase ASCII letters. -/
def lowerChars : List Char :=
  ['a','b','c','d','e','f','g','h','i','j','k','l','m',
   'n','o','p','q','r','s','t','u','v','w','x','y','z']

/-- The 26 uppercase ASCII letters. -/
def upperChars : List Char :=
  ['A','B','C','D','E','F','G','H','I','J','K','L','M',
   'N','O','P','Q','R','S','T','U','V','W','X','Y','Z']

/-- ASCII uppercasing: the effect of Python `str.upper` on the ASCII inputs
that occur here, written as an explicit table so that case analysis is by
pattern matching. -/
def asciiUpper : Char → Char
  | 'a' => 'A' | 'b' => 'B' | 'c' => 'C' | 'd' => 'D' | 'e' => 'E'
  | 'f' => 'F' | 'g' => 'G' | 'h' => 'H' | 'i' => 'I' | 'j' => 'J'
  | 'k' => 'K' | 'l' => 'L' | 'm' => 'M' | 'n' => 'N' | 'o' => 'O'
  | 'p' => 'P' | 'q' => 'Q' | 'r' => 'R' | 's' => 'S' | 't' => 'T'
  | 'u' => 'U' | 'v' => 'V' | 'w' => 'W' | 'x' => 'X' | 'y' => 'Y'
  | 'z' => 'Z'
  | c => c

/-- Splitting on commas: the embedding of Python `str.split(",")`.
The accumulator holds the current piece reversed. -/
def splitAux : List Char → List Char → List (List Char)
  | [], acc => [acc.reverse]
  | c :: cs, acc =>
    if c = ',' then acc.reverse :: splitAux cs [] else splitAux cs (c :: acc)

/-- Python `str.strip()`: drop whitespace from both ends. -/
def strip (l : List Char) : List Char :=
  ((l.dropWhile isPySpace).reverse.dropWhile isPySpace).reverse

/-- The numeric capture group of the regex `([WL])([-+]?\d*\.?\d*)R?` after
the leading letter: greedy scan of an optional sign, digits, an optional
dot, digits.  Because every part of the pattern after `[WL]` is optional
and the match is unanchored, the greedy scan is exactly the regex
semantics and the match never fails once the first letter matched.
Returns the capture of group 2 together with the unscanned remainder. -/
def capBody (l : List Char) : List Char × List Char :=
  let p1 := l.span isDig
  match p1.2 with
  | '.' :: r =>
    let p2 := r.span isDig
    (p1.1 ++ '.' :: p2.1, p2.2)
  | _ => (p1.1, p1.2)

/-- Numeric capture including the optional leading sign (group 2 of the
regex), applied to the characters after the `[WL]` letter. -/
def captureNum (cs : List Char) : List Char × List Char :=
  match cs with
  | c :: r =>
    if c = '-' ∨ c = '+' then
      let p := capBody r
      (c :: p.1, p.2)
    else capBody cs
  | [] => ([], [])

/-- Decimal digit string value, most significant digit first. -/
def natOf (l : List Char) : ℕ :=
  l.foldl (fun a c => 10 * a + (c.toNat - 48)) 0

/-- True when the numeric string carries a leading minus sign. -/
def pyNeg (cs : List Char) : Bool :=
  match cs with
  | c :: _ => decide (c = '-')
  | [] => false

/-- The numeric string with its optional leading sign removed. -/
def pyBody (cs : List Char) : List Char :=
  match cs with
  | c :: r => if c = '-' ∨ c = '+' then r else c :: r
  | [] => []

/-- Embedding of Python `float(s)` on the strings that the numeric capture
group can produce (`[-+]?\d*\.?\d*`): `none` is a `ValueError` (no digit at
all, e.g. `"-"`, `"+"`, `"."`), otherwise the exact decimal value. -/
def pyFloat (cs : List Char) : Option ℚ :=
  let p := (pyBody cs).span isDig
  match p.2 with
  | [] =>
    if p.1 = [] then none
    else some (if pyNeg cs then -(natOf p.1 : ℚ) else (natOf p.1 : ℚ))
  | '.' :: fp =>
    if fp.all isDig then
      if p.1 = [] ∧ fp = [] then none
      else
        let v : ℚ := ((natOf p.1 : ℚ) * 10 ^ fp.length + (natOf fp : ℚ)) / 10 ^ fp.length
        some (if pyNeg cs then -v else v)
    else none
  | _ => none

/-- Trade kind: the `type` strings `"W"`, `"L"`, `"BE"` of the source. -/
inductive TType
  | W
  | L
  | BE
deriving DecidableEq

/-- One parsed trade: a dictionary `{type, r_multiple}` in the source. -/
structure Trade where
  type : TType
  r_multiple : ℚ
deriving DecidableEq

/-- Result of `parse_trade_data`: a trade list, the `None` error value, or
an unhandled `ValueError` raised by `float`. -/
inductive ParseResult
  | ok (trades : List Trade)
  | invalid
  | exn
deriving DecidableEq

/-- Prepend a trade to a successful parse; failures pass through (the
source appends into a list it then discards by returning `None` or by
raising). -/
def consR (t : Trade) : ParseResult → ParseResult
  | .ok ts => .ok (t :: ts)
  | r => r

/-- The literal token `BE`. -/
def beChars : List Char := ['B', 'E']

/-- The per-token loop of `parse_trade_data` (src/trade_analyzer.py lines
22 to 54): skip empty entries, accept `BE`, otherwise match the unanchored
regex `([WL])([-+]?\d*\.?\d*)R?`; an empty capture defaults to `1.0`, a
nonempty capture goes through `float` (which can raise), and an entry whose
first character is not `W` or `L` makes the whole parse return `None`. -/
def parseTokens : List (List Char) → ParseResult
  | [] => .ok []
  | [] :: rest => parseTokens rest
  | (c :: cs) :: rest =>
    if c :: cs = beChars then consR ⟨.BE, 0⟩ (parseTokens rest)
    else if c = 'W' ∨ c = 'L' then
      let cap := (captureNum cs).1
      if cap = [] then consR ⟨if c = 'W' then .W else .L, 1⟩ (parseTokens rest)
      else
        match pyFloat cap with
        | some q => consR ⟨if c = 'W' then .W else .L, q⟩ (parseTokens rest)
        | none => .exn
    else .invalid

/-- Cleaning pipeline of `parse_trade_data`: remove spaces, split on
commas, then strip and uppercase each entry. -/
def cleanTokens (s : String) : List (List Char) :=
  (splitAux (s.data.filter (fun c => c ≠ ' ')) []).map
    (fun e => (strip e).map asciiUpper)

/-- Embedding of `parse_trade_data` (src/trade_analyzer.py lines 6-54). -/
def parse_trade_data (s : String) : ParseResult :=
  parseTokens (cleanTokens s)

/-- Modelled from the spec: full-match acceptor for the token pattern of
section 4.1, one letter `W` or `L`, an optional signed decimal number, an
optional trailing `R` (the anchored regex `[WL][-+]?\d*\.?\d*R?`).  Used to
compare the behaviour the spec describes with the unanchored match the
source performs. -/
def specTokenMatches (t : List Char) : Bool :=
  match t with
  | [] => false
  | c :: cs =>
    decide (c = 'W' ∨ c = 'L') &&
      (let r := (captureNum cs).2
       decide (r = [] ∨ r = ['R']))

/-- A token the source loop actually rejects: nonempty, not `BE`, and not
beginning with `W` or `L`. -/
def isRejectedToken : List Char → Bool
  | [] => false
  | c :: cs => decide (¬(c :: cs = beChars) ∧ ¬(c = 'W') ∧ ¬(c = 'L'))

/-! ### Dates

Embedding of `datetime.strptime(day_date, "%Y-%m-%d")` followed by the
calendar derivations of `analyze_trades` (lines 107 to 125).  CPython
matches `%Y` as exactly four digits, `%m` as `1[0-2]|0[1-9]|[1-9]` and
`%d` as `3[01]|[12]\d|0[1-9]|[1-9]`, requires the whole string to be
consumed, and then validates the day against the month length.  The
two-digit alternatives need a digit where the one-digit alternatives need
the separator or the end, so the alternation is deterministic and no
backtracking is needed. -/

/-- Gregorian leap year. -/
def isLeap (y : ℕ) : Bool :=
  decide ((y % 4 = 0 ∧ y % 100 ≠ 0) ∨ y % 400 = 0)

/-- Days in a month. -/
def daysInMonth (y m : ℕ) : ℕ :=
  if m = 2 then (if isLeap y then 29 else 28)
  else if m = 4 ∨ m = 6 ∨ m = 9 ∨ m = 11 then 30
  else 31

/-- Digit value of an ASCII digit character. -/
def dval (c : Char) : ℕ := c.toNat - 48

/-- Read a month field per the strptime pattern `1[0-2]|0[1-9]|[1-9]`. -/
def readMonth : List Char → Option (ℕ × List Char)
  | a :: b :: r =>
    if a = '1' ∧ ('0' ≤ b ∧ b ≤ '2') then some (10 + dval b, r)
    else if a = '0' ∧ ('1' ≤ b ∧ b ≤ '9') then some (dval b, r)
    else if '1' ≤ a ∧ a ≤ '9' then some (dval a, b :: r)
    else none
  | [a] => if '1' ≤ a ∧ a ≤ '9' then some (dval a, []) else none
  | [] => none

/-- Read a day field per the strptime pattern `3[01]|[12]\d|0[1-9]|[1-9]`. -/
def readDay : List Char → Option (ℕ × List Char)
  | a :: b :: r =>
    if a = '3' ∧ (b = '0' ∨ b = '1') then some (30 + dval b, r)
    else if (a = '1' ∨ a = '2') ∧ isDig b then some (10 * dval a + dval b, r)
    else if a = '0' ∧ ('1' ≤ b ∧ b ≤ '9') then some (dval b, r)
    else if '1' ≤ a ∧ a ≤ '9' then some (dval a, b :: r)
    else none
  | [a] => if '1' ≤ a ∧ a ≤ '9' then some (dval a, []) else none
  | [] => none

/-- Embedding of `datetime.strptime(s, "%Y-%m-%d")`: year, month, day, or
`none` for the `ValueError` the source catches. -/
def parseDate (s : String) : Option (ℕ × ℕ × ℕ) :=
  match s.data with
  | y1 :: y2 :: y3 :: y4 :: '-' :: rest =>
    if isDig y1 ∧ isDig y2 ∧ isDig y3 ∧ isDig y4 then
      let y := natOf [y1, y2, y3, y4]
      match readMonth rest with
      | some (m, rest2) =>
        match rest2 with
        | '-' :: rest3 =>
          match readDay rest3 with
          | some (d, rest4) =>
            if rest4 = [] ∧ 1 ≤ y ∧ 1 ≤ d ∧ d ≤ daysInMonth y m then
              some (y, m, d)
            else none
          | none => none
        | _ => none
      | none => none
    else none
  | _ => none

/-- Weekday with Monday = 0, as Python `date.weekday()`, by the Sakamoto
formula (proleptic Gregorian calendar). -/
def pyWeekday (y m d : ℕ) : ℕ :=
  let t : List ℕ := [0, 3, 2, 5, 0, 3, 5, 1, 4, 6, 2, 4]
  let y2 := if m < 3 then y - 1 else y
  ((y2 + y2 / 4 - y2 / 100 + y2 / 400 + t.getD (m - 1) 0 + d) % 7 + 6) % 7

/-- Weekday name, as `strftime("%A")`. -/
def weekdayName : ℕ → String
  | 0 => "Monday"
  | 1 => "Tuesday"
  | 2 => "Wednesday"
  | 3 => "Thursday"
  | 4 => "Friday"
  | 5 => "Saturday"
  | _ => "Sunday"

/-- Month name table of `analyze_trades` (lines 293 to 297). -/
def monthName : ℕ → String
  | 1 => "January" | 2 => "February" | 3 => "March" | 4 => "April"
  | 5 => "May" | 6 => "June" | 7 => "July" | 8 => "August"
  | 9 => "September" | 10 => "October" | 11 => "November" | 12 => "December"
  | _ => ""

/-- The week-of-month expression of `analyze_trades` lines 117 to 121:
`(dom + first_day.weekday() - 1) // 7 + 1`. -/
def week_of_month_code (y m d : ℕ) : ℕ :=
  (d + pyWeekday y m 1 - 1) / 7 + 1

/-- Calendar fields of one day (lines 107 to 125): weekday name,
week of month, month; the bare `except` turns any parse failure into
`("Unknown", None, None)`. -/
def calendarFields (date : String) : String × Option ℕ × Option ℕ :=
  match parseDate date with
  | some (y, m, d) =>
    (weekdayName (pyWeekday y m d), some (week_of_month_code y m d), some m)
  | none => ("Unknown", none, none)

/-! ### The aggregator -/

/-- Division that records the Python `ZeroDivisionError`. -/
def sdiv (a b : ℚ) : Option ℚ := if b = 0 then none else some (a / b)

/-- Fallible left fold, the loop shape of the source. -/
def foldM {σ α : Type} (f : σ → α → Option σ) : σ → List α → Option σ
  | st, [] => some st
  | st, a :: as => (f st a).bind (fun st2 => foldM f st2 as)

/-- Fallible map, the loop shape of the bucket averaging. -/
def mapOpt {α β : Type} (f : α → Option β) : List α → Option (List β)
  | [] => some []
  | a :: as => (f a).bind (fun b => (mapOpt f as).bind (fun bs => some (b :: bs)))

/-- The win rate expression `wins / (wins + losses) * 100 if wins + losses
> 0 else 0` of lines 154 to 155 and 227 to 228. -/
def winRatePct (w l : ℕ) : Option ℚ :=
  if 0 < w + l then (sdiv (w : ℚ) ((w + l : ℕ) : ℚ)).map (fun x => x * 100)
  else pure 0

/-- The guarded daily return of lines 168 to 171: append
`dailyPnl / previousBalance` when the previous balance is positive,
otherwise skip the sample. -/
def dailyReturnUpd (prev pnl : ℚ) (drs : List ℚ) : Option (List ℚ) :=
  if prev > 0 then (sdiv pnl prev).map (fun r => drs ++ [r]) else pure drs

/-- The profit factor of line 232: `rWon / rLost` when `rLost > 0`, else
`float("inf")`. -/
def profitFactorOpt (rwon rlost : ℚ) : Option (WithTop ℚ) :=
  if rlost > 0 then Option.map (fun q => WithTop.some q) (sdiv rwon rlost)
  else pure (⊤ : WithTop ℚ)

/-- The guarded averages of lines 234 and 235. -/
def avgROpt (tot : ℚ) (cnt : ℕ) : Option ℚ :=
  if 0 < cnt then sdiv tot (cnt : ℚ) else pure 0

/-- The risk / reward ratio of line 236. -/
def riskRewardOpt (awr alr : ℚ) : Option (WithTop ℚ) :=
  if alr > 0 then Option.map (fun q => WithTop.some q) (sdiv awr alr)
  else pure (⊤ : WithTop ℚ)

/-- The guarded drawdown percentage of line 250. -/
def ddPct (dd peak : ℚ) : Option ℚ :=
  if peak > 0 then (sdiv dd peak).map (fun x => x * 100) else pure 0

/-- One trading day as fed to `analyze_trades`. -/
structure DayRecord where
  day : ℤ
  date : String
  trades : List Trade
deriving DecidableEq

/-- One per-day output record (lines 200 to 216 of the source). -/
structure DailyQ where
  day : ℤ
  date : String
  day_of_week : String
  week_of_month : Option ℕ
  month : Option ℕ
  num_trades : ℕ
  wins : ℕ
  losses : ℕ
  breakeven : ℕ
  r_won : ℚ
  r_lost : ℚ
  net_r : ℚ
  win_rate : ℚ
  daily_pnl : ℚ
  end_balance : ℚ
deriving DecidableEq

/-- The overall metrics dictionary (lines 305 to 325); `profit_factor` and
`avg_risk_reward` live in `WithTop ℚ` because the source assigns
`float("inf")`.  The Sharpe ratio and SQN are factored out below (they are
real-valued); `analyze_trades` here returns the two sample lists they are
computed from. -/
structure OverallQ where
  total_trades : ℕ
  win_rate : ℚ
  total_r : ℚ
  profit_factor : WithTop ℚ
  avg_win_r : ℚ
  avg_loss_r : ℚ
  avg_risk_reward : WithTop ℚ
  net_pnl : ℚ
  final_balance : ℚ
  max_drawdown_pct : ℚ
  max_drawdown_amount : ℚ
  expectancy : ℚ
  max_win_streak : ℕ
  max_loss_streak : ℕ
  day_of_week_performance : List (String × ℚ)
  week_of_month_performance : List (String × ℚ)
  month_performance : List (String × ℚ)
deriving DecidableEq

/-- Full result of `analyze_trades`, with the two sample lists the Sharpe
ratio and the SQN are computed from. -/
structure ResultQ where
  overall : OverallQ
  daily : List DailyQ
  daily_returns : List ℚ
  all_trade_r : List ℚ
deriving DecidableEq

/-- The running state of the per-day loop of `analyze_trades` (lines 68
to 99). -/
structure AnalyzeState where
  total_trades : ℕ
  total_wins : ℕ
  total_losses : ℕ
  total_breakeven : ℕ
  total_r_won : ℚ
  total_r_lost : ℚ
  daily_results : List DailyQ
  current_balance : ℚ
  peak_balance : ℚ
  equity_curve : List ℚ
  daily_returns : List ℚ
  current_win_streak : ℕ
  current_loss_streak : ℕ
  max_win_streak : ℕ
  max_loss_streak : ℕ
  dow_perf : List (String × List ℚ)
  wom_perf : List (ℕ × List ℚ)
  month_perf : List (ℕ × List ℚ)
  all_trade_r : List ℚ
deriving DecidableEq

/-- Initial state (lines 68 to 99). -/
def initState (initial_balance : ℚ) : AnalyzeState where
  total_trades := 0
  total_wins := 0
  total_losses := 0
  total_breakeven := 0
  total_r_won := 0
  total_r_lost := 0
  daily_results := []
  current_balance := initial_balance
  peak_balance := initial_balance
  equity_curve := [initial_balance]
  daily_returns := []
  current_win_streak := 0
  current_loss_streak := 0
  max_win_streak := 0
  max_loss_streak := 0
  dow_perf := [("Monday", []), ("Tuesday", []), ("Wednesday", []),
               ("Thursday", []), ("Friday", [])]
  wom_perf := [(1, []), (2, []), (3, []), (4, []), (5, [])]
  month_perf := [(1, []), (2, []), (3, []), (4, []), (5, []), (6, []),
                 (7, []), (8, []), (9, []), (10, []), (11, []), (12, [])]
  all_trade_r := []

/-- The win and loss streak state machine of lines 173 to 184, as a pure
step on `(current win, current loss, max win, max loss)`. -/
def streakStep (cur : ℕ × ℕ × ℕ × ℕ) (net_r : ℚ) : ℕ × ℕ × ℕ × ℕ :=
  if net_r > 0 then
    (cur.1 + 1, 0,
     if cur.1 + 1 > cur.2.2.1 then cur.1 + 1 else cur.2.2.1, cur.2.2.2)
  else if net_r < 0 then
    (0, cur.2.1 + 1, cur.2.2.1,
     if cur.2.1 + 1 > cur.2.2.2 then cur.2.1 + 1 else cur.2.2.2)
  else cur

/-- Append a value into a fixed-key bucket map; a key that is absent is
not inserted, matching the `if key in dict` guards of lines 187 to 194. -/
def assocAppend {α : Type} [DecidableEq α]
    (m : List (α × List ℚ)) (k : α) (v : ℚ) : List (α × List ℚ) :=
  m.map (fun p => if p.1 = k then (p.1, p.2 ++ [v]) else p)

/-- The test `trade.type == W` of the source, as a boolean. -/
def isW (t : Trade) : Bool :=
  match t.type with
  | .W => true
  | _ => false

/-- The test `trade.type == L` of the source, as a boolean. -/
def isL (t : Trade) : Bool :=
  match t.type with
  | .L => true
  | _ => false

/-- The test `trade.type == BE` of the source, as a boolean. -/
def isBE (t : Trade) : Bool :=
  match t.type with
  | .BE => true
  | _ => false

/-- Total loss magnitude of one day, the generator sum of line 138. -/
def dayRLost (d : DayRecord) : ℚ :=
  ((d.trades.filter isL).map (fun t => t.r_multiple)).sum

/-- Total win magnitude of one day, the generator sum of line 137. -/
def dayRWon (d : DayRecord) : ℚ :=
  ((d.trades.filter isW).map (fun t => t.r_multiple)).sum

/-- The body of the per-day loop of `analyze_trades` (lines 102 to 224).
The two divisions of the body (the daily win rate and the daily return)
are performed through `sdiv` behind the same guards the source uses. -/
def dayStep (risk_amount : ℚ) (st : AnalyzeState) (dd : DayRecord) :
    Option AnalyzeState := do
  let cal := calendarFields dd.date
  let day_trades := dd.trades
  let day_wins := (day_trades.filter isW).length
  let day_losses := (day_trades.filter isL).length
  let day_breakeven := (day_trades.filter isBE).length
  let day_r_won := dayRWon dd
  let day_r_lost := dayRLost dd
  let day_net_r := day_r_won - day_r_lost
  let day_trade_r := day_trades.map (fun t =>
    match t.type with
    | .W => t.r_multiple
    | .L => -t.r_multiple
    | .BE => 0)
  let day_win_rate ← winRatePct day_wins day_losses
  let day_pnl := day_net_r * risk_amount
  let previous_balance := st.current_balance
  let current_balance := previous_balance + day_pnl
  let peak_balance :=
    if current_balance > st.peak_balance then current_balance else st.peak_balance
  let daily_returns ← dailyReturnUpd previous_balance day_pnl st.daily_returns
  let stk := streakStep (st.current_win_streak, st.current_loss_streak,
    st.max_win_streak, st.max_loss_streak) day_net_r
  let dow_perf := assocAppend st.dow_perf cal.1 day_net_r
  let wom_perf := match cal.2.1 with
    | some w => assocAppend st.wom_perf w day_net_r
    | none => st.wom_perf
  let month_perf := match cal.2.2 with
    | some mo => assocAppend st.month_perf mo day_net_r
    | none => st.month_perf
  let dailyq : DailyQ :=
    { day := dd.day
      date := dd.date
      day_of_week := cal.1
      week_of_month := cal.2.1
      month := cal.2.2
      num_trades := day_trades.length
      wins := day_wins
      losses := day_losses
      breakeven := day_breakeven
      r_won := day_r_won
      r_lost := day_r_lost
      net_r := day_net_r
      win_rate := day_win_rate
      daily_pnl := day_pnl
      end_balance := current_balance }
  pure
    { total_trades := st.total_trades + day_trades.length
      total_wins := st.total_wins + day_wins
      total_losses := st.total_losses + day_losses
      total_breakeven := st.total_breakeven + day_breakeven
      total_r_won := st.total_r_won + day_r_won
      total_r_lost := st.total_r_lost + day_r_lost
      daily_results := st.daily_results ++ [dailyq]
      current_balance := current_balance
      peak_balance := peak_balance
      equity_curve := st.equity_curve ++ [current_balance]
      daily_returns := daily_returns
      current_win_streak := stk.1
      current_loss_streak := stk.2.1
      max_win_streak := stk.2.2.1
      max_loss_streak := stk.2.2.2
      dow_perf := dow_perf
      wom_perf := wom_perf
      month_perf := month_perf
      all_trade_r := st.all_trade_r ++ day_trade_r }

/-- One step of the maximum drawdown walk (lines 244 to 254) on the state
`(peak, max amount, max percent)`. -/
def ddStep (s : ℚ × ℚ × ℚ) (equity : ℚ) : Option (ℚ × ℚ × ℚ) := do
  let peak := if equity > s.1 then equity else s.1
  let drawdown := peak - equity
  let pct ← ddPct drawdown peak
  pure (peak,
    if drawdown > s.2.1 then drawdown else s.2.1,
    if drawdown > s.2.1 then pct else s.2.2)

/-- Mean of a bucket through `sdiv`. -/
def bucketAvg (l : List ℚ) : Option ℚ := sdiv l.sum (l.length : ℚ)

/-- The maximum drawdown walk of lines 240 to 254 over the equity curve:
zero when the curve has a single point, otherwise the fold of `ddStep`
seeded with the first point as the initial peak. -/
def maxDrawdownOpt (ec : List ℚ) : Option (ℚ × ℚ) :=
  if 1 < ec.length then
    match ec with
    | e :: rest => (foldM ddStep (e, (0 : ℚ), (0 : ℚ)) rest).map (fun s => (s.2.1, s.2.2))
    | [] => pure ((0 : ℚ), (0 : ℚ))
  else pure ((0 : ℚ), (0 : ℚ))

/-- One weekday bucket average (lines 277 to 282): always emitted, zero
when the bucket is empty. -/
def dowAvgOpt (p : String × List ℚ) : Option (String × ℚ) :=
  if p.2.isEmpty then pure (p.1, (0 : ℚ))
  else (bucketAvg p.2).map (fun a => (p.1, a))

/-- One week-of-month bucket average (lines 284 to 289), emitted only for
nonempty buckets. -/
def womAvgOpt (p : ℕ × List ℚ) : Option (String × ℚ) :=
  (bucketAvg p.2).map (fun a => ("Week " ++ toString p.1, a))

/-- One month bucket average (lines 291 to 301), emitted only for nonempty
buckets. -/
def monthAvgOpt (p : ℕ × List ℚ) : Option (String × ℚ) :=
  (bucketAvg p.2).map (fun a => (monthName p.1, a))

/-- The aggregate pass of `analyze_trades` (lines 226 to 328), assembling
the overall metrics from the final loop state. -/
def mkOverall (st : AnalyzeState) (risk_amount : ℚ) : Option OverallQ := do
  let overall_win_rate ← winRatePct st.total_wins st.total_losses
  let total_r := st.total_r_won - st.total_r_lost
  let profit_factor ← profitFactorOpt st.total_r_won st.total_r_lost
  let avg_win_r ← avgROpt st.total_r_won st.total_wins
  let avg_loss_r ← avgROpt st.total_r_lost st.total_losses
  let avg_risk_reward ← riskRewardOpt avg_win_r avg_loss_r
  let net_pnl := total_r * risk_amount
  let dd ← maxDrawdownOpt st.equity_curve
  let expectancy :=
    overall_win_rate / 100 * avg_win_r - (100 - overall_win_rate) / 100 * avg_loss_r
  let day_of_week_avg ← mapOpt dowAvgOpt st.dow_perf
  let week_of_month_avg ← mapOpt womAvgOpt (st.wom_perf.filter (fun p => !p.2.isEmpty))
  let month_avg ← mapOpt monthAvgOpt (st.month_perf.filter (fun p => !p.2.isEmpty))
  pure
    { total_trades := st.total_trades
      win_rate := overall_win_rate
      total_r := total_r
      profit_factor := profit_factor
      avg_win_r := avg_win_r
      avg_loss_r := avg_loss_r
      avg_risk_reward := avg_risk_reward
      net_pnl := net_pnl
      final_balance := st.current_balance
      max_drawdown_pct := dd.2
      max_drawdown_amount := dd.1
      expectancy := expectancy
      max_win_streak := st.max_win_streak
      max_loss_streak := st.max_loss_streak
      day_of_week_performance := day_of_week_avg
      week_of_month_performance := week_of_month_avg
      month_performance := month_avg }

/-- Embedding of `analyze_trades` (src/trade_analyzer.py lines 56 to 330):
a single forward pass over the days followed by the aggregate pass.  The
result is `none` exactly when some division of the source would raise. -/
def analyze_trades (trades_data : List DayRecord)
    (initial_balance risk_amount : ℚ) : Option ResultQ := do
  let st ← foldM (dayStep risk_amount) (initState initial_balance) trades_data
  let overall ← mkOverall st risk_amount
  pure
    { overall := overall
      daily := st.daily_results
      daily_returns := st.daily_returns
      all_trade_r := st.all_trade_r }

/-- Total loss magnitude over a whole history. -/
def totalRLostOf (days : List DayRecord) : ℚ := (days.map dayRLost).sum

/-- Division over the reals that records the Python `ZeroDivisionError`. -/
noncomputable def sdivR (a b : ℝ) : Option ℝ := if b = 0 then none else some (a / b)

/-- The Sharpe ratio computation of lines 259 to 265, on the list of daily
returns: zero when fewer than two samples, otherwise mean over population
standard deviation, annualized by `sqrt 252`, with the division guarded by
`std_dev > 0`. -/
noncomputable def sharpe_ratio (daily_returns : List ℚ) : Option ℝ :=
  if 1 < daily_returns.length then
    let avg_return : ℝ :=
      (daily_returns.map (Rat.cast : ℚ → ℝ)).sum / daily_returns.length
    let std_dev : ℝ := Real.sqrt
      ((daily_returns.map (fun r => ((Rat.cast r : ℝ) - avg_return) ^ 2)).sum /
        daily_returns.length)
    if std_dev > 0 then (sdivR avg_return std_dev).map (fun x => x * Real.sqrt 252)
    else some 0
  else some 0

/-- The SQN computation of lines 267 to 273, on the list of per-trade
signed R values. -/
noncomputable def sqn (all_trade_r : List ℚ) : Option ℝ :=
  if 1 < all_trade_r.length then
    let avg_r : ℝ := (all_trade_r.map (Rat.cast : ℚ → ℝ)).sum / all_trade_r.length
    let std_dev_r : ℝ := Real.sqrt
      ((all_trade_r.map (fun r => ((Rat.cast r : ℝ) - avg_r) ^ 2)).sum / all_trade_r.length)
    if std_dev_r > 0 then sdivR (avg_r * Real.sqrt (all_trade_r.length)) std_dev_r
    else some 0
  else some 0

/-- Modelled from the spec: the arithmetic mean of a sample list. -/
noncomputable def specMean (l : List ℚ) : ℝ :=
  (l.map (Rat.cast : ℚ → ℝ)).sum / l.length

/-- Modelled from the spec: the population standard deviation (divide by
`N`, not `N - 1`). -/
noncomputable def specPopStdDev (l : List ℚ) : ℝ :=
  Real.sqrt ((l.map (fun r => ((Rat.cast r : ℝ) - specMean l) ^ 2)).sum / l.length)

/-- The concrete two-day history of the worked example of the spec:
`[W2R, L1R]` then `[W1R]`. -/
def exampleDays : List DayRecord :=
  [⟨1, "2024-01-01", [⟨.W, 2⟩, ⟨.L, 1⟩]⟩,
   ⟨2, "2024-01-02", [⟨.W, 1⟩]⟩]

/-- The full analysis result of the worked example, as a literal. -/
def exampleResult : ResultQ :=
  ⟨⟨3, 200 / 3, 2, ((3 : ℚ) : WithTop ℚ), 3 / 2, 1, ((3 / 2 : ℚ) : WithTop ℚ),
     500, 25500, 0, 0, 2 / 3, 2, 0,
     [("Monday", 1), ("Tuesday", 1), ("Wednesday", 0), ("Thursday", 0), ("Friday", 0)],
     [("Week 1", 1)], [("January", 1)]⟩,
   [⟨1, "2024-01-01", "Monday", some 1, some 1, 2, 1, 1, 0, 2, 1, 1, 50, 250, 25250⟩,
    ⟨2, "2024-01-02", "Tuesday", some 1, some 1, 1, 1, 0, 0, 1, 0, 1, 100, 250, 25500⟩],
   [1 / 100, 1 / 101], [2, -1, 1]⟩

end Backtest

namespace Backtest

/-! ## Theorems -/

/-- C2: the claim says `parse` is total and never terminates with an
unhandled exception, in particular on tokens such as `W.` or `L-`.  The
code disagrees: on those tokens the regex capture is nonempty but denotes
no number, and `float` raises a `ValueError` that nothing catches. -/
theorem C2_parse_raises_on_digitless_capture :
    parse_trade_data "W." = ParseResult.exn ∧
    parse_trade_data "L-" = ParseResult.exn ∧
    parse_trade_data "W2R,L+,BE" = ParseResult.exn := by decide

/-- C1 counterexample: the token `WX` is neither `BE` nor a full match of
the token pattern, yet the parse does not fail: the unanchored `re.match`
accepts the prefix `W` and yields a 1R win. -/
theorem C1_counterexample :
    specTokenMatches ("WX".data) = false ∧ "WX".data ≠ beChars ∧
    parse_trade_data "WX" = ParseResult.ok [⟨.W, 1⟩] := by decide

/-- C3 counterexample: `L-1` parses successfully and stores the signed
value `-1` in the magnitude field, violating `rMultiple >= 0`. -/
theorem C3_counterexample :
    parse_trade_data "L-1" = ParseResult.ok [⟨.L, -1⟩] ∧
    ¬ ((0 : ℚ) ≤ -1) := by decide

/-- Calendar fields of the first example day. -/
theorem calendarFields_day1 :
    calendarFields "2024-01-01" = ("Monday", some 1, some 1) := by
  with_unfolding_all decide

/-- Calendar fields of the second example day. -/
theorem calendarFields_day2 :
    calendarFields "2024-01-02" = ("Tuesday", some 1, some 1) := by
  with_unfolding_all decide

/-- The week label of the first week bucket. -/
theorem weekLabelOne : "Week " ++ toString (1 : ℕ) = "Week 1" := by
  with_unfolding_all decide

/-- Weekday names are pairwise distinct where the example needs it. -/
theorem dowNamesNe :
    (("Tuesday" : String) = "Monday") = False ∧
    (("Wednesday" : String) = "Monday") = False ∧
    (("Thursday" : String) = "Monday") = False ∧
    (("Friday" : String) = "Monday") = False ∧
    (("Monday" : String) = "Tuesday") = False ∧
    (("Wednesday" : String) = "Tuesday") = False ∧
    (("Thursday" : String) = "Tuesday") = False ∧
    (("Friday" : String) = "Tuesday") = False := by
  refine ⟨?_, ?_, ?_, ?_, ?_, ?_, ?_, ?_⟩ <;> simp

/-- Full evaluation of the analyzer on the worked example. -/
theorem analyze_example_eval :
    analyze_trades exampleDays 25000 250 = some exampleResult := by
  norm_num [analyze_trades, exampleDays, exampleResult, foldM, dayStep, mkOverall,
    initState, calendarFields_day1, calendarFields_day2, weekLabelOne,
    dowNamesNe.1, dowNamesNe.2.1, dowNamesNe.2.2.1, dowNamesNe.2.2.2.1,
    dowNamesNe.2.2.2.2.1, dowNamesNe.2.2.2.2.2.1, dowNamesNe.2.2.2.2.2.2.1,
    dowNamesNe.2.2.2.2.2.2.2, sdiv, bucketAvg, assocAppend, ddStep, streakStep,
    dayRWon, dayRLost, isW, isL, isBE, mapOpt, Option.bind, monthName,
    winRatePct, dailyReturnUpd, profitFactorOpt, avgROpt, riskRewardOpt,
    ddPct, maxDrawdownOpt, dowAvgOpt, womAvgOpt, monthAvgOpt,
    List.filter, List.length, List.sum, List.cons_ne_nil]

/-- C4 counterexample: on the worked example the overall win rate is
`200/3` (two wins out of three decided trades), not the `100` the claim
states. -/
theorem C4_counterexample :
    (analyze_trades exampleDays 25000 250).map (fun r => r.overall.win_rate) =
      some (200 / 3) ∧ (200 / 3 : ℚ) ≠ 100 := by
  rw [analyze_example_eval]
  refine ⟨rfl, by norm_num⟩

/-- C4 amended: on `initialBalance = 25000`, `riskAmount = 250` and the
two-day history `[W2R, L1R]` then `[W1R]`, day 1 has `netR = 1`,
`dailyPnl = 250`, `endBalance = 25250`; day 2 has `netR = 1`,
`dailyPnl = 250`, `endBalance = 25500`; overall `totalR = 2`,
`winRate = 200/3` percent, and both maximum drawdown figures are `0`. -/
theorem C4_amended_example :
    (analyze_trades exampleDays 25000 250).map (fun r =>
      (r.daily.map (fun d => (d.net_r, d.daily_pnl, d.end_balance)),
        r.overall.total_r, r.overall.win_rate,
        r.overall.max_drawdown_amount, r.overall.max_drawdown_pct)) =
      some ([(1, 250, 25250), (1, 250, 25500)], 2, 200 / 3, 0, 0) := by
  rw [analyze_example_eval]
  rfl

/-- C7: the streak state machine.  A positive net day increments the win
streak, resets the loss streak and bumps the maximum win streak when
exceeded; a negative net day acts symmetrically; a flat day changes
nothing. -/
theorem C7_streak_state_machine (cws cls mws mls : ℕ) (net_r : ℚ) :
    (net_r > 0 → streakStep (cws, cls, mws, mls) net_r =
      (cws + 1, 0, if cws + 1 > mws then cws + 1 else mws, mls)) ∧
    (net_r < 0 → streakStep (cws, cls, mws, mls) net_r =
      (0, cls + 1, mws, if cls + 1 > mls then cls + 1 else mls)) ∧
    (net_r = 0 → streakStep (cws, cls, mws, mls) net_r = (cws, cls, mws, mls)) := by
  refine ⟨fun h => ?_, fun h => ?_, fun h => ?_⟩
  · simp only [streakStep]
    rw [if_pos h]
  · simp only [streakStep]
    rw [if_neg (by linarith : ¬ net_r > 0), if_pos h]
  · simp only [streakStep]
    rw [if_neg (by simp [h] : ¬ net_r > 0), if_neg (by simp [h] : ¬ net_r < 0)]

/-- Witness for C7 at the concrete state `(2, 1, 5, 4)`. -/
theorem C7_streak_state_machine_witness :
    streakStep (2, 1, 5, 4) 1 = (3, 0, 5, 4) ∧
    streakStep (2, 1, 5, 4) (-1) = (0, 2, 5, 4) ∧
    streakStep (2, 1, 5, 4) 0 = (2, 1, 5, 4) :=
  ⟨by rw [(C7_streak_state_machine 2 1 5 4 1).1 (by norm_num)]; norm_num,
   by rw [(C7_streak_state_machine 2 1 5 4 (-1)).2.1 (by norm_num)]; norm_num,
   by rw [(C7_streak_state_machine 2 1 5 4 0).2.2 (by norm_num)]⟩

end Backtest

namespace Backtest

/-! ### Helper lemmas for the aggregator -/

/-- A bind of two defined options is defined. -/
theorem bind_isSome {α β : Type} {o : Option α} {f : α → Option β}
    (h1 : o.isSome = true) (h2 : ∀ a, (f a).isSome = true) :
    (o.bind f).isSome = true := by
  cases o with
  | none => simp at h1
  | some a => simpa using h2 a

/-- A guarded division is defined. -/
theorem sdiv_isSome {a b : ℚ} (h : b ≠ 0) : (sdiv a b).isSome = true := by
  simp [sdiv, h]

/-- The win rate expression is always defined. -/
theorem winRatePct_isSome (w l : ℕ) : (winRatePct w l).isSome = true := by
  rw [winRatePct]
  split
  · rename_i h
    rw [Option.isSome_map']
    exact sdiv_isSome (Nat.cast_ne_zero.mpr (Nat.pos_iff_ne_zero.mp h))
  · rfl

/-- The daily return update is always defined. -/
theorem dailyReturnUpd_isSome (prev pnl : ℚ) (drs : List ℚ) :
    (dailyReturnUpd prev pnl drs).isSome = true := by
  rw [dailyReturnUpd]
  split
  · rename_i h
    rw [Option.isSome_map']
    exact sdiv_isSome (ne_of_gt h)
  · rfl

/-- The profit factor is always defined. -/
theorem profitFactorOpt_isSome (rwon rlost : ℚ) : (profitFactorOpt rwon rlost).isSome = true := by
  rw [profitFactorOpt]
  split
  · rename_i h
    rw [Option.isSome_map']
    exact sdiv_isSome (ne_of_gt h)
  · rfl

/-- The guarded averages are always defined. -/
theorem avgROpt_isSome (tot : ℚ) (cnt : ℕ) : (avgROpt tot cnt).isSome = true := by
  rw [avgROpt]
  split
  · rename_i h
    exact sdiv_isSome (Nat.cast_ne_zero.mpr (Nat.pos_iff_ne_zero.mp h))
  · rfl

/-- The risk / reward ratio is always defined. -/
theorem riskRewardOpt_isSome (awr alr : ℚ) : (riskRewardOpt awr alr).isSome = true := by
  rw [riskRewardOpt]
  split
  · rename_i h
    rw [Option.isSome_map']
    exact sdiv_isSome (ne_of_gt h)
  · rfl

/-- The drawdown percentage is always defined. -/
theorem ddPct_isSome (dd peak : ℚ) : (ddPct dd peak).isSome = true := by
  rw [ddPct]
  split
  · rename_i h
    rw [Option.isSome_map']
    exact sdiv_isSome (ne_of_gt h)
  · rfl

/-- The per-day step never fails: both of its divisions are guarded. -/
theorem dayStep_isSome (ra : ℚ) (st : AnalyzeState) (d : DayRecord) :
    (dayStep ra st d).isSome = true := by
  simp only [dayStep, Option.bind_eq_bind]
  refine bind_isSome (winRatePct_isSome _ _) (fun a => ?_)
  refine bind_isSome (dailyReturnUpd_isSome _ _ _) (fun b => ?_)
  rfl

/-- The fallible fold never fails when its step never fails. -/
theorem foldM_isSome {σ α : Type} {f : σ → α → Option σ}
    (hf : ∀ st a, (f st a).isSome = true) :
    ∀ (l : List α) (st : σ), (foldM f st l).isSome = true := by
  intro l
  induction l with
  | nil => intro st; rfl
  | cons a as ih =>
    intro st
    simp only [foldM]
    exact bind_isSome (hf st a) (fun st2 => ih st2)

/-- The fallible map never fails when its function never fails on the
elements of the list. -/
theorem mapOpt_isSome {α β : Type} {f : α → Option β} :
    ∀ {l : List α}, (∀ a ∈ l, (f a).isSome = true) → (mapOpt f l).isSome = true := by
  intro l
  induction l with
  | nil => intro _; rfl
  | cons a as ih =>
    intro h
    simp only [mapOpt]
    refine bind_isSome (h a (by simp)) (fun b => ?_)
    exact bind_isSome (ih (fun x hx => h x (by simp [hx]))) (fun bs => rfl)

/-- The drawdown walk never fails. -/
theorem ddStep_isSome (s : ℚ × ℚ × ℚ) (e : ℚ) : (ddStep s e).isSome = true := by
  simp only [ddStep, Option.bind_eq_bind]
  exact bind_isSome (ddPct_isSome _ _) (fun a => rfl)

/-- The maximum drawdown is always defined. -/
theorem maxDrawdownOpt_isSome (ec : List ℚ) : (maxDrawdownOpt ec).isSome = true := by
  rw [maxDrawdownOpt.eq_def]
  split
  · split
    · rw [Option.isSome_map']
      exact foldM_isSome ddStep_isSome _ _
    · rfl
  · rfl

/-- A bucket average over a nonempty bucket is defined. -/
theorem bucketAvg_isSome {l : List ℚ} (h : l ≠ []) : (bucketAvg l).isSome = true := by
  refine sdiv_isSome (Nat.cast_ne_zero.mpr ?_)
  simpa using Nat.pos_iff_ne_zero.mp (List.length_pos.mpr h)

/-- A weekday bucket average is always defined. -/
theorem dowAvgOpt_isSome (p : String × List ℚ) : (dowAvgOpt p).isSome = true := by
  rw [dowAvgOpt]
  split
  · rfl
  · rename_i h
    rw [Option.isSome_map']
    exact bucketAvg_isSome (by simpa [List.isEmpty_iff] using h)

/-- A week-of-month bucket average over a nonempty bucket is defined. -/
theorem womAvgOpt_isSome {p : ℕ × List ℚ} (h : p.2 ≠ []) : (womAvgOpt p).isSome = true := by
  rw [womAvgOpt, Option.isSome_map']
  exact bucketAvg_isSome h

/-- A month bucket average over a nonempty bucket is defined. -/
theorem monthAvgOpt_isSome {p : ℕ × List ℚ} (h : p.2 ≠ []) : (monthAvgOpt p).isSome = true := by
  rw [monthAvgOpt, Option.isSome_map']
  exact bucketAvg_isSome h

/-- The aggregate pass never fails: every ratio is guarded. -/
theorem mkOverall_isSome (st : AnalyzeState) (ra : ℚ) :
    (mkOverall st ra).isSome = true := by
  simp only [mkOverall, Option.bind_eq_bind]
  refine bind_isSome (winRatePct_isSome _ _) (fun owr => ?_)
  refine bind_isSome (profitFactorOpt_isSome _ _) (fun pf => ?_)
  refine bind_isSome (avgROpt_isSome _ _) (fun awr => ?_)
  refine bind_isSome (avgROpt_isSome _ _) (fun alr => ?_)
  refine bind_isSome (riskRewardOpt_isSome _ _) (fun arr => ?_)
  refine bind_isSome (maxDrawdownOpt_isSome _) (fun dd => ?_)
  refine bind_isSome (mapOpt_isSome (fun p _ => dowAvgOpt_isSome p)) (fun dowavg => ?_)
  refine bind_isSome (mapOpt_isSome (fun p hp => womAvgOpt_isSome ?_)) (fun womavg => ?_)
  · have := (List.mem_filter.mp hp).2
    simpa [List.isEmpty_iff] using this
  refine bind_isSome (mapOpt_isSome (fun p hp => monthAvgOpt_isSome ?_)) (fun mavg => ?_)
  · have := (List.mem_filter.mp hp).2
    simpa [List.isEmpty_iff] using this
  rfl

/-- The analyzer as a whole never fails. -/
theorem analyze_trades_isSome (days : List DayRecord) (ib ra : ℚ) :
    (analyze_trades days ib ra).isSome = true := by
  simp only [analyze_trades, Option.bind_eq_bind]
  refine bind_isSome (foldM_isSome (dayStep_isSome ra) days (initState ib)) (fun st => ?_)
  exact bind_isSome (mkOverall_isSome st ra) (fun ov => rfl)

end Backtest

namespace Backtest

/-- C5: for every day sequence and every configuration, including
non-positive balances and risk amounts, the analyzer produces a result
(it never raises and never divides by zero: every division is guarded),
and the Sharpe ratio and SQN computations are defined on every sample
list. -/
theorem C5_analyze_never_divides_by_zero (days : List DayRecord)
    (initial_balance risk_amount : ℚ) (rs : List ℚ) :
    (analyze_trades days initial_balance risk_amount).isSome = true ∧
    (sharpe_ratio rs).isSome = true ∧ (sqn rs).isSome = true := by
  refine ⟨analyze_trades_isSome days initial_balance risk_amount, ?_, ?_⟩
  · simp only [sharpe_ratio]
    split
    · split
      · rename_i h
        rw [Option.isSome_map', sdivR, if_neg (ne_of_gt h)]
        rfl
      · rfl
    · rfl
  · simp only [sqn]
    split
    · split
      · rename_i h
        rw [sdivR, if_neg (ne_of_gt h)]
        rfl
      · rfl
    · rfl

/-! ### Extraction lemmas for the profit factor -/

/-- The per-day step adds the loss magnitude of the day to the running
total. -/
theorem dayStep_total_r_lost {ra : ℚ} {st : AnalyzeState} {d : DayRecord}
    {st2 : AnalyzeState} (h : dayStep ra st d = some st2) :
    st2.total_r_lost = st.total_r_lost + dayRLost d := by
  simp only [dayStep, Option.bind_eq_bind, Option.bind_eq_some,
    Option.pure_def, Option.some.injEq] at h
  obtain ⟨a, _, b, _, h⟩ := h
  rw [← h]

/-- The fold accumulates the total loss magnitude of the history. -/
theorem foldM_total_r_lost {ra : ℚ} :
    ∀ {l : List DayRecord} {st st2 : AnalyzeState},
      foldM (dayStep ra) st l = some st2 →
      st2.total_r_lost = st.total_r_lost + totalRLostOf l := by
  intro l
  induction l with
  | nil =>
    intro st st2 h
    obtain rfl : st = st2 := by simpa [foldM] using h
    simp [totalRLostOf]
  | cons d ds ih =>
    intro st st2 h
    simp only [foldM, Option.bind_eq_some] at h
    obtain ⟨st1, h1, h2⟩ := h
    rw [ih h2, dayStep_total_r_lost h1]
    simp only [totalRLostOf, List.map_cons, List.sum_cons]
    ring

/-- When the total loss magnitude is not positive, the profit factor of
the assembled overall metrics is the infinity sentinel. -/
theorem mkOverall_profit_factor {st : AnalyzeState} {ra : ℚ} {ov : OverallQ}
    (h : mkOverall st ra = some ov) (h2 : ¬ st.total_r_lost > 0) :
    ov.profit_factor = ⊤ := by
  simp only [mkOverall, Option.bind_eq_bind, Option.bind_eq_some,
    Option.pure_def, Option.some.injEq] at h
  obtain ⟨owr, _, pf, hpf, awr, _, alr, _, arr, _, dd, _, dow, _, wom, _, mon, _, h⟩ := h
  rw [profitFactorOpt, if_neg h2] at hpf
  simp only [Option.pure_def, Option.some.injEq] at hpf
  rw [← h, ← hpf]

/-- The overall metrics of a successful analysis come from `mkOverall`
applied to the final state of the fold. -/
theorem analyze_overall {days : List DayRecord} {ib ra : ℚ} {res : ResultQ}
    (h : analyze_trades days ib ra = some res) :
    ∃ st, foldM (dayStep ra) (initState ib) days = some st ∧
      mkOverall st ra = some res.overall := by
  simp only [analyze_trades, Option.bind_eq_bind, Option.bind_eq_some,
    Option.pure_def, Option.some.injEq] at h
  obtain ⟨st, h1, ov, h2, h⟩ := h
  exact ⟨st, h1, by rw [← h]; exact h2⟩

/-- C10: for every history whose total R lost is not strictly positive,
including the empty history and an all-break-even history, the profit
factor reported by the analyzer is the infinity sentinel, never the zero
sentinel used elsewhere for degenerate inputs. -/
theorem C10_profit_factor_infinity (days : List DayRecord) (ib ra : ℚ)
    (res : ResultQ) (h : analyze_trades days ib ra = some res)
    (hl : totalRLostOf days ≤ 0) :
    res.overall.profit_factor = ⊤ ∧ res.overall.profit_factor ≠ (0 : WithTop ℚ) := by
  obtain ⟨st, h1, h2⟩ := analyze_overall h
  have e := foldM_total_r_lost h1
  have hng : ¬ st.total_r_lost > 0 := by
    rw [e]
    simp only [initState, zero_add]
    exact not_lt.mpr hl
  have htop := mkOverall_profit_factor h2 hng
  refine ⟨htop, by rw [htop]; simp⟩

/-- Witness for C10 on the empty history. -/
theorem C10_profit_factor_infinity_witness :
    (analyze_trades ([] : List DayRecord) 25000 250).map
      (fun r => r.overall.profit_factor) = some ⊤ := by
  cases hres : analyze_trades ([] : List DayRecord) 25000 250 with
  | none =>
    have hs := analyze_trades_isSome ([] : List DayRecord) 25000 250
    rw [hres] at hs
    simp at hs
  | some res =>
    have h := C10_profit_factor_infinity [] 25000 250 res hres
      (by simp [totalRLostOf])
    simp [h.1]

end Backtest

namespace Backtest

/-- A guarded construction yields its value exactly when the guard holds. -/
theorem ite_some_none_eq {α : Type} {c : Prop} [Decidable c] {v w : α}
    (h : (if c then some v else none) = some w) : c ∧ v = w := by
  by_cases hc : c
  · rw [if_pos hc] at h
    exact ⟨hc, by injection h⟩
  · rw [if_neg hc] at h
    exact Option.noConfusion h

/-- A date accepted by the embedded `strptime` has day of month at least
one. -/
theorem parseDate_day_ge_one {s : String} {y m d : ℕ}
    (h : parseDate s = some (y, m, d)) : 1 ≤ d := by
  unfold parseDate at h
  split at h
  · split at h
    · split at h
      · split at h
        · split at h
          · obtain ⟨hcond, he⟩ := ite_some_none_eq h
            have hd := congrArg (fun p : ℕ × ℕ × ℕ => p.2.2) he
            simp only at hd
            rw [← hd]
            exact hcond.2.2.1
          · exact Option.noConfusion h
        · exact Option.noConfusion h
      · exact Option.noConfusion h
    · exact Option.noConfusion h
  · exact Option.noConfusion h

end Backtest

namespace Backtest

/-- The shifted integer division equals the rational ceiling. -/
theorem ceil_shift_seven (n : ℕ) (hn : 1 ≤ n) :
    (((n - 1) / 7 + 1 : ℕ) : ℤ) = ⌈(n : ℚ) / 7⌉ := by
  obtain ⟨k, hk⟩ : ∃ k : ℕ, (n - 1) / 7 + 1 = k := ⟨_, rfl⟩
  have h1 : 7 * k ≤ n + 6 := by omega
  have h2 : n ≤ 7 * k := by omega
  rw [hk, eq_comm, Int.ceil_eq_iff]
  constructor
  · rw [lt_div_iff₀ (by norm_num : (0 : ℚ) < 7)]
    have hc : (7 : ℚ) * k ≤ (n : ℚ) + 6 := by exact_mod_cast h1
    push_cast
    linarith
  · rw [div_le_iff₀ (by norm_num : (0 : ℚ) < 7)]
    have hc : (n : ℚ) ≤ 7 * k := by exact_mod_cast h2
    push_cast
    linarith

/-- C8: for every parseable date the week-of-month bucket computed by the
analyzer, `(dayOfMonth + firstDayOfMonthWeekday - 1) // 7 + 1`, equals the
ceiling `ceil((dayOfMonth + firstDayOfMonthWeekday) / 7)` promised by the
spec, where the weekday index of the first of the month is Monday-based. -/
theorem C8_week_of_month_ceiling (s : String) (y m d : ℕ)
    (h : parseDate s = some (y, m, d)) :
    (week_of_month_code y m d : ℤ) =
      ⌈((d : ℚ) + (pyWeekday y m 1 : ℚ)) / 7⌉ := by
  have hd := parseDate_day_ge_one h
  have hn : 1 ≤ d + pyWeekday y m 1 := le_trans hd (Nat.le_add_right d _)
  have hceil := ceil_shift_seven (d + pyWeekday y m 1) hn
  rw [week_of_month_code, hceil]
  push_cast
  ring_nf

set_option maxRecDepth 2000 in
/-- Witness for C8 at the concrete date 2024-01-15. -/
theorem C8_week_of_month_ceiling_witness :
    parseDate "2024-01-15" = some (2024, 1, 15) ∧
    (week_of_month_code 2024 1 15 : ℤ) =
      ⌈((15 : ℚ) + (pyWeekday 2024 1 1 : ℚ)) / 7⌉ := by
  have hp : parseDate "2024-01-15" = some (2024, 1, 15) := rfl
  exact ⟨hp, C8_week_of_month_ceiling "2024-01-15" 2024 1 15 hp⟩

end Backtest

namespace Backtest

open Classical in
/-- C6: the Sharpe ratio and the SQN evaluate to exactly zero when the
sample count is below two or the population standard deviation is zero;
otherwise the Sharpe ratio is `mean / stddev * sqrt 252` and the SQN is
`mean * sqrt N / stddev`, both with the population standard deviation
(divide by `N`, not `N - 1`), and neither raises. -/
theorem C6_sharpe_sqn_formulas (dr tr : List ℚ) :
    sharpe_ratio dr = some (if 2 ≤ dr.length ∧ specPopStdDev dr ≠ 0
      then specMean dr / specPopStdDev dr * Real.sqrt 252 else 0) ∧
    sqn tr = some (if 2 ≤ tr.length ∧ specPopStdDev tr ≠ 0
      then specMean tr * Real.sqrt tr.length / specPopStdDev tr else 0) := by
  constructor
  · simp only [sharpe_ratio]
    by_cases hl : 1 < dr.length
    · rw [if_pos hl]
      have est : Real.sqrt ((dr.map
          (fun r => ((Rat.cast r : ℝ) -
            (dr.map (Rat.cast : ℚ → ℝ)).sum / dr.length) ^ 2)).sum / dr.length) =
          specPopStdDev dr := rfl
      rw [est]
      by_cases hs : specPopStdDev dr > 0
      · rw [if_pos hs, sdivR, if_neg (ne_of_gt hs)]
        rw [if_pos ⟨hl, ne_of_gt hs⟩]
        rfl
      · rw [if_neg hs]
        have h0 : specPopStdDev dr = 0 :=
          le_antisymm (not_lt.mp hs) (Real.sqrt_nonneg _)
        rw [if_neg (fun hc => hc.2 h0)]
    · rw [if_neg hl]
      rw [if_neg (fun hc : 2 ≤ dr.length ∧ _ => hl hc.1)]
  · simp only [sqn]
    by_cases hl : 1 < tr.length
    · rw [if_pos hl]
      have est : Real.sqrt ((tr.map
          (fun r => ((Rat.cast r : ℝ) -
            (tr.map (Rat.cast : ℚ → ℝ)).sum / tr.length) ^ 2)).sum / tr.length) =
          specPopStdDev tr := rfl
      rw [est]
      by_cases hs : specPopStdDev tr > 0
      · rw [if_pos hs, sdivR, if_neg (ne_of_gt hs)]
        rw [if_pos ⟨hl, ne_of_gt hs⟩]
        rfl
      · rw [if_neg hs]
        have h0 : specPopStdDev tr = 0 :=
          le_antisymm (not_lt.mp hs) (Real.sqrt_nonneg _)
        rw [if_neg (fun hc => hc.2 h0)]
    · rw [if_neg hl]
      rw [if_neg (fun hc : 2 ≤ tr.length ∧ _ => hl hc.1)]

end Backtest

namespace Backtest

/-- If some token of the list is one the loop rejects, the token loop ends
in the error value or in the exception, never in a trade list. -/
theorem parseTokens_not_ok_of_rejected :
    ∀ {toks : List (List Char)}, toks.any isRejectedToken = true →
      parseTokens toks = ParseResult.invalid ∨ parseTokens toks = ParseResult.exn := by
  intro toks
  induction toks with
  | nil => intro h; simp at h
  | cons t rest ih =>
    intro h
    rw [List.any_cons] at h
    cases t with
    | nil =>
      have hr : rest.any isRejectedToken = true := by
        simpa [isRejectedToken] using h
      simpa [parseTokens] using ih hr
    | cons c cs =>
      by_cases hbe : c :: cs = beChars
      · have hr : rest.any isRejectedToken = true := by
          simpa [isRejectedToken, hbe] using h
        rcases ih hr with h1 | h1
        · left; simp [parseTokens, hbe, consR, h1]
        · right; simp [parseTokens, hbe, consR, h1]
      · by_cases hwl : c = 'W' ∨ c = 'L'
        · have hfalse : isRejectedToken (c :: cs) = false := by
            rcases hwl with rfl | rfl <;> simp [isRejectedToken]
          have hr : rest.any isRejectedToken = true := by
            simpa [hfalse] using h
          simp only [parseTokens]
          rw [if_neg hbe, if_pos hwl]
          by_cases hcap : (captureNum cs).1 = []
          · rw [if_pos hcap]
            rcases ih hr with h1 | h1
            · left; simp [consR, h1]
            · right; simp [consR, h1]
          · rw [if_neg hcap]
            cases hpf : pyFloat (captureNum cs).1 with
            | none => right; simp [hpf]
            | some q =>
              rcases ih hr with h1 | h1
              · left; simp [hpf, consR, h1]
              · right; simp [hpf, consR, h1]
        · left
          simp [parseTokens, hbe, hwl]

/-- C1 amended: the source loop only aborts on a nonempty token that is
not `BE` and does not begin with `W` or `L`; when such a token is present
the parse never returns a trade list (it returns the error value, or
raises if an earlier token triggers the numeric-conversion defect).
Tokens beginning with `W` or `L` are accepted by prefix matching even when
trailing characters make them fail the full spec pattern. -/
theorem C1_rejected_token_never_yields_trades (s : String)
    (h : (cleanTokens s).any isRejectedToken = true) :
    ∀ ts, parse_trade_data s ≠ ParseResult.ok ts := by
  intro ts hok
  rcases parseTokens_not_ok_of_rejected h with h1 | h1 <;>
    rw [parse_trade_data, h1] at hok <;> exact ParseResult.noConfusion hok

/-- Witness for the amended C1 on the input `X,W1R`. -/
theorem C1_rejected_token_never_yields_trades_witness :
    (cleanTokens "X,W1R").any isRejectedToken = true ∧
    parse_trade_data "X,W1R" ≠ ParseResult.ok [⟨.W, 1⟩] :=
  ⟨by decide, C1_rejected_token_never_yields_trades "X,W1R" (by decide) [⟨.W, 1⟩]⟩

end Backtest

namespace Backtest

/-- Uppercasing either fixes a character or yields an uppercase letter. -/
theorem asciiUpper_eq_self_or_upper (c : Char) :
    asciiUpper c = c ∨ asciiUpper c ∈ upperChars := by
  rw [asciiUpper.eq_def]
  split <;> first
    | exact Or.inl rfl
    | exact Or.inr (by decide)

/-- Stripping only removes characters. -/
theorem mem_of_mem_strip {c : Char} {l : List Char} (h : c ∈ strip l) : c ∈ l := by
  unfold strip at h
  rw [List.mem_reverse] at h
  have h2 := (List.dropWhile_sublist (l := (l.dropWhile isPySpace).reverse)
    (p := isPySpace)).subset h
  rw [List.mem_reverse] at h2
  exact (List.dropWhile_sublist (l := l) (p := isPySpace)).subset h2

/-- Splitting only redistributes characters. -/
theorem mem_splitAux :
    ∀ {l acc p : List Char}, p ∈ splitAux l acc → ∀ {c}, c ∈ p → c ∈ l ∨ c ∈ acc := by
  intro l
  induction l with
  | nil =>
    intro acc p hp c hc
    simp only [splitAux, List.mem_singleton] at hp
    right
    rw [← List.mem_reverse]
    rw [hp] at hc
    exact hc
  | cons d ds ih =>
    intro acc p hp c hc
    simp only [splitAux] at hp
    by_cases hd : d = ','
    · rw [if_pos hd] at hp
      rcases List.mem_cons.mp hp with h1 | h1
      · right
        rw [h1] at hc
        exact List.mem_reverse.mp hc
      · rcases ih h1 hc with h2 | h2
        · exact Or.inl (List.mem_cons_of_mem d h2)
        · exact absurd h2 (List.not_mem_nil c)
    · rw [if_neg hd] at hp
      rcases ih hp hc with h2 | h2
      · exact Or.inl (List.mem_cons_of_mem d h2)
      · rcases List.mem_cons.mp h2 with h3 | h3
        · exact Or.inl (by rw [h3]; exact List.mem_cons_self d ds)
        · exact Or.inr h3
end Backtest

namespace Backtest

/-- If the input string contains no minus sign, no cleaned token does. -/
theorem minus_not_in_cleanTokens {s : String} {tok : List Char}
    (hs : '-' ∉ s.data) (ht : tok ∈ cleanTokens s) : '-' ∉ tok := by
  intro hmem
  unfold cleanTokens at ht
  rcases List.mem_map.mp ht with ⟨e, he, rfl⟩
  rcases List.mem_map.mp hmem with ⟨c, hc, hcu⟩
  have hcm : c = '-' := by
    rcases asciiUpper_eq_self_or_upper c with h1 | h1
    · rw [← h1, hcu]
    · rw [hcu] at h1
      exact absurd h1 (by decide)
  rw [hcm] at hc
  have h2 := mem_of_mem_strip hc
  rcases mem_splitAux he h2 with h3 | h3
  · exact hs (List.mem_of_mem_filter h3)
  · exact absurd h3 (List.not_mem_nil _)

/-- The span loop is take-while and drop-while with a reversed
accumulator. -/
theorem span_loop_eq {α : Type} (p : α → Bool) :
    ∀ (l acc : List α),
      List.span.loop p l acc = (acc.reverse ++ l.takeWhile p, l.dropWhile p) := by
  intro l
  induction l with
  | nil => intro acc; simp [List.span.loop]
  | cons a as ih =>
    intro acc
    cases hp : p a
    · have hp2 : ¬ p a = true := by simp [hp]
      simp [List.span.loop, hp, List.takeWhile_cons_of_neg hp2,
        List.dropWhile_cons_of_neg hp2]
    · simp [List.span.loop, hp, ih, List.takeWhile_cons_of_pos hp,
        List.dropWhile_cons_of_pos hp]

/-- The span is take-while paired with drop-while. -/
theorem span_eq {α : Type} (p : α → Bool) (l : List α) :
    l.span p = (l.takeWhile p, l.dropWhile p) := by
  simp [List.span, span_loop_eq p l []]

/-- Characters of a span prefix come from the list. -/
theorem mem_span_left {p : Char → Bool} {l : List Char} {c : Char}
    (h : c ∈ (l.span p).1) : c ∈ l := by
  rw [span_eq] at h
  exact (List.takeWhile_sublist p).subset h

/-- Characters of a span suffix come from the list. -/
theorem mem_span_right {p : Char → Bool} {l : List Char} {c : Char}
    (h : c ∈ (l.span p).2) : c ∈ l := by
  rw [span_eq] at h
  exact (List.dropWhile_sublist (l := l) (p := p)).subset h

/-- Characters of the body of the numeric capture come from the scanned
characters. -/
theorem mem_capBody {l : List Char} {c : Char} (h : c ∈ (capBody l).1) : c ∈ l := by
  simp only [capBody] at h
  split at h
  · rename_i r heq
    rcases List.mem_append.mp h with h1 | h1
    · exact mem_span_left h1
    · rcases List.mem_cons.mp h1 with h2 | h2
      · have : c ∈ (l.span isDig).2 := by rw [heq, h2]; exact List.mem_cons_self _ _
        exact mem_span_right this
      · have : c ∈ (l.span isDig).2 := by
          rw [heq]
          exact List.mem_cons_of_mem _ (mem_span_left h2)
        exact mem_span_right this
  · exact mem_span_left h

/-- Characters of the numeric capture come from the scanned characters. -/
theorem mem_captureNum {cs : List Char} {c : Char}
    (h : c ∈ (captureNum cs).1) : c ∈ cs := by
  unfold captureNum at h
  split at h
  · rename_i c0 r
    split at h
    · rcases List.mem_cons.mp h with h1 | h1
      · rw [h1]; exact List.mem_cons_self _ _
      · exact List.mem_cons_of_mem _ (mem_capBody h1)
    · exact mem_capBody h
  · exact absurd h (List.not_mem_nil _)

end Backtest

namespace Backtest

/-- A float conversion of a capture without a minus sign is nonnegative. -/
theorem pyFloat_nonneg {cs : List Char} {q : ℚ}
    (hm : '-' ∉ cs) (h : pyFloat cs = some q) : 0 ≤ q := by
  have hneg : pyNeg cs = false := by
    cases cs with
    | nil => rfl
    | cons c0 r =>
      simp only [pyNeg, decide_eq_false_iff_not]
      intro hh
      exact hm (hh ▸ List.mem_cons_self _ _)
  simp only [pyFloat, hneg] at h
  split at h
  · split at h
    · exact Option.noConfusion h
    · injection h with h2
      rw [← h2, if_neg (by simp : ¬ false = true)]
      positivity
  · split at h
    · split at h
      · exact Option.noConfusion h
      · injection h with h2
        rw [← h2, if_neg (by simp : ¬ false = true)]
        positivity
    · exact Option.noConfusion h
  · exact Option.noConfusion h

end Backtest

namespace Backtest

/-- A successful parse through `consR` decomposes into head and tail. -/
theorem consR_ok {t : Trade} {r : ParseResult} {ts : List Trade}
    (h : consR t r = ParseResult.ok ts) :
    ∃ ts2, r = ParseResult.ok ts2 ∧ ts = t :: ts2 := by
  cases r with
  | ok ts2 =>
    refine ⟨ts2, rfl, ?_⟩
    simp only [consR] at h
    injection h with h2
    exact h2.symm
  | invalid => exact ParseResult.noConfusion h
  | exn => exact ParseResult.noConfusion h

/-- Every trade produced by the token loop from tokens without a minus
sign has a nonnegative magnitude. -/
theorem parseTokens_nonneg :
    ∀ {toks : List (List Char)} {ts : List Trade},
      (∀ t ∈ toks, '-' ∉ t) → parseTokens toks = ParseResult.ok ts →
      ∀ tr ∈ ts, 0 ≤ tr.r_multiple := by
  intro toks
  induction toks with
  | nil =>
    intro ts _ h tr htr
    simp only [parseTokens] at h
    injection h with h2
    rw [← h2] at htr
    exact absurd htr (List.not_mem_nil tr)
  | cons t rest ih =>
    intro ts hm h tr htr
    have hmrest : ∀ t2 ∈ rest, '-' ∉ t2 := fun t2 ht2 => hm t2 (List.mem_cons_of_mem t ht2)
    cases t with
    | nil =>
      exact ih hmrest (by simpa [parseTokens] using h) tr htr
    | cons c cs =>
      have hmt : '-' ∉ c :: cs := hm (c :: cs) (List.mem_cons_self _ _)
      simp only [parseTokens] at h
      by_cases hbe : c :: cs = beChars
      · rw [if_pos hbe] at h
        obtain ⟨ts2, h2, rfl⟩ := consR_ok h
        rcases List.mem_cons.mp htr with h3 | h3
        · rw [h3]
        · exact ih hmrest h2 tr h3
      · rw [if_neg hbe] at h
        by_cases hwl : c = 'W' ∨ c = 'L'
        · rw [if_pos hwl] at h
          by_cases hcap : (captureNum cs).1 = []
          · rw [if_pos hcap] at h
            obtain ⟨ts2, h2, rfl⟩ := consR_ok h
            rcases List.mem_cons.mp htr with h3 | h3
            · rw [h3]; norm_num
            · exact ih hmrest h2 tr h3
          · rw [if_neg hcap] at h
            cases hpf : pyFloat (captureNum cs).1 with
            | none => rw [hpf] at h; exact ParseResult.noConfusion h
            | some q =>
              rw [hpf] at h
              obtain ⟨ts2, h2, rfl⟩ := consR_ok h
              rcases List.mem_cons.mp htr with h3 | h3
              · rw [h3]
                have hmc : '-' ∉ (captureNum cs).1 := by
                  intro hc
                  exact hmt (List.mem_cons_of_mem c (mem_captureNum hc))
                exact pyFloat_nonneg hmc hpf
              · exact ih hmrest h2 tr h3
        · rw [if_neg hwl] at h
          exact ParseResult.noConfusion h

/-- C3 amended: for every input string that contains no minus sign, every
trade of a successful parse has a nonnegative magnitude; when an explicit
negative numeric part such as `L-1` is given, the signed value is stored
in the magnitude field as-is, so the invariant fails in general. -/
theorem C3_no_minus_sign_nonneg (s : String) (ts : List Trade)
    (hm : '-' ∉ s.data) (h : parse_trade_data s = ParseResult.ok ts) :
    ∀ t ∈ ts, 0 ≤ t.r_multiple :=
  parseTokens_nonneg (fun tok htok => minus_not_in_cleanTokens hm htok) h

/-- Witness for the amended C3 on the input `W2R,BE,L1R`. -/
theorem C3_no_minus_sign_nonneg_witness :
    ('-' ∉ "W2R,BE,L1R".data) ∧
    parse_trade_data "W2R,BE,L1R" =
      ParseResult.ok [⟨.W, 2⟩, ⟨.BE, 0⟩, ⟨.L, 1⟩] ∧
    ∀ t ∈ [(⟨.W, 2⟩ : Trade), ⟨.BE, 0⟩, ⟨.L, 1⟩], 0 ≤ t.r_multiple :=
  ⟨by decide, by decide,
   C3_no_minus_sign_nonneg "W2R,BE,L1R" [⟨.W, 2⟩, ⟨.BE, 0⟩, ⟨.L, 1⟩]
     (by decide) (by decide)⟩

end Backtest

namespace Backtest

/-! ### Digit string machinery for the serialization round trip -/

end Backtest

namespace Backtest

end Backtest

namespace Backtest

end Backtest

namespace Backtest

end Backtest

namespace Backtest

end Backtest

namespace Backtest

end Backtest

namespace Backtest

end Backtest

namespace Backtest

end Backtest

namespace Backtest

end Backtest

namespace Backtest

end Backtest
